import Mathlib

set_option maxRecDepth 100000

/-!
Verification of the NeoPixelBus color value types against their specification.

The development shallowly embeds the color arithmetic of the library:
8-bit channels are modelled as `Nat` with an explicit `% 256` wherever the
C++ code converts a wider intermediate back to `uint8_t`, and `% 65536`
wherever a wider intermediate is stored into a `uint16_t`.  Intermediates
that C++ computes after integer promotion to a 32-bit `int` are modelled as
exact `Nat` arithmetic, which is faithful because every promoted
intermediate in this code is far below `2 ^ 31`.  The floating-point color
conversions are modelled over `ℚ`; every property proved about them below
only involves inputs whose float evaluation in the C++ code is exact
(small integers, halves and the like), so the rational model agrees with
the float code at each point the theorems touch.
-/

/-- Red, Green, Blue channels, each a byte in the source
(`uint8_t R, G, B` in RgbColor.h). -/
structure RgbColor where
  R : Nat
  G : Nat
  B : Nat
deriving DecidableEq, Repr

/-- Red, Green, Blue, White channels, each a byte in the source
(`uint8_t R, G, B, W` in RgbwColor.h). -/
structure RgbwColor where
  R : Nat
  G : Nat
  B : Nat
  W : Nat
deriving DecidableEq, Repr

/-- Hue, Saturation, Lightness, floats in the source, modelled over `ℚ`. -/
structure HslColor where
  H : ℚ
  S : ℚ
  L : ℚ
deriving DecidableEq, Repr

/-- Hue, Saturation, Brightness, floats in the source, modelled over `ℚ`. -/
structure HsbColor where
  H : ℚ
  S : ℚ
  B : ℚ
deriving DecidableEq, Repr

namespace RgbColor

/-- Embeds `RgbColor::_elementDim`: the product is computed after integer
promotion (exact, at most `255 * 256`), shifted right by 8, and the return
converts to `uint8_t`, hence the `% 256`. -/
def _elementDim (value ratio : Nat) : Nat :=
  ((value * (ratio + 1)) >>> 8) % 256

/-- Embeds `RgbColor::Dim`. -/
def Dim (c : RgbColor) (ratio : Nat) : RgbColor :=
  ⟨_elementDim c.R ratio, _elementDim c.G ratio, _elementDim c.B ratio⟩

/-- Embeds the first statement of `RgbColor::_elementBrighten`: the quotient
`((value + 1) << 8) / (ratio + 1)` is computed after promotion to `int`
(exact) and then stored into the `uint16_t` local `element`, hence the
`% 65536`. -/
def _elementBrightenStored (value ratio : Nat) : Nat :=
  (((value + 1) <<< 8) / (ratio + 1)) % 65536

/-- Embeds `RgbColor::_elementBrighten`: clamp the stored `uint16_t` element
to 255, otherwise decrement it with `uint16_t` wraparound (`element -= 1`),
and convert the result to `uint8_t` on return. -/
def _elementBrighten (value ratio : Nat) : Nat :=
  let element := _elementBrightenStored value ratio
  if element > 255 then 255
  else ((element + 65535) % 65536) % 256

/-- Modelled from the spec (for comparison with `_elementBrighten`): the
claimed exact-integer-arithmetic description of a brightened element --
`element = ((value+1)<<8) / (ratio+1)` with no intermediate truncation,
clamped to 255, else decremented by one. -/
def elementBrightenSpec (value ratio : Nat) : Nat :=
  let q := ((value + 1) <<< 8) / (ratio + 1)
  if q > 255 then 255 else q - 1

/-- Embeds `RgbColor::Brighten`. -/
def Brighten (c : RgbColor) (ratio : Nat) : RgbColor :=
  ⟨_elementBrighten c.R ratio, _elementBrighten c.G ratio, _elementBrighten c.B ratio⟩

/-- Embeds `RgbColor::CalculateBrightness`: the sum is exact after promotion
(at most 765), divided by 3, and converted to `uint8_t` on return. -/
def CalculateBrightness (c : RgbColor) : Nat :=
  ((c.R + c.G + c.B) / 3) % 256

/-- Embeds the single-brightness constructor `RgbColor(uint8_t brightness)`:
a gray fill. -/
def fromBrightness (brightness : Nat) : RgbColor :=
  ⟨brightness, brightness, brightness⟩

end RgbColor

namespace RgbwColor

/-- Embeds the single-brightness constructor `RgbwColor(uint8_t brightness)`:
`R, G, B` are value-initialized to zero and only `W` receives the value. -/
def fromBrightness (brightness : Nat) : RgbwColor :=
  ⟨0, 0, 0, brightness⟩

/-- Embeds the converting constructor `RgbwColor(const RgbColor&)`: the
white channel is zero-filled. -/
def fromRgb (c : RgbColor) : RgbwColor :=
  ⟨c.R, c.G, c.B, 0⟩

/-- Embeds `RgbwColor::IsColorLess` (source order: `R == 0 && B == 0 && G == 0`). -/
def IsColorLess (c : RgbwColor) : Bool :=
  c.R == 0 && c.B == 0 && c.G == 0

/-- Embeds one saturating-add arm of `RgbwColor::Lighten`: the comparison
`v < 255 - delta` happens after promotion to `int` (exact for byte inputs),
and `v += delta` stores back into a `uint8_t`, hence the `% 256`. -/
def lightenChannel (v delta : Nat) : Nat :=
  if v < 255 - delta then (v + delta) % 256 else 255

/-- Embeds `RgbwColor::Lighten`: if the color is colorless only `W` is
lightened, otherwise `R`, `G`, `B` are lightened and `W` is untouched. -/
def Lighten (c : RgbwColor) (delta : Nat) : RgbwColor :=
  if c.IsColorLess then
    ⟨c.R, c.G, c.B, lightenChannel c.W delta⟩
  else
    ⟨lightenChannel c.R delta, lightenChannel c.G delta, lightenChannel c.B delta, c.W⟩

/-- Embeds `RgbwColor::CalculateBrightness`: the three-channel average with
a widened accumulator, then the larger of that and `W`. -/
def CalculateBrightness (c : RgbwColor) : Nat :=
  let colorB := ((c.R + c.G + c.B) / 3) % 256
  if c.W > colorB then c.W else colorB

end RgbwColor

/-- Embeds the C-style cast `(int)x` on the rational float model:
truncation toward zero. -/
def ratTrunc (x : ℚ) : Int :=
  if x < 0 then -⌊-x⌋ else ⌊x⌋

/-- Embeds the conversion of a float expression to `uint8_t` on the rational
float model: truncation toward zero, then the byte conversion.  Every value
the claims push through this conversion is nonnegative, matching the
defined-behavior range of the C++ cast. -/
def toByte (x : ℚ) : Nat :=
  (ratTrunc x).toNat % 256

/-- Embeds `std::abs` on the rational float model. -/
def rabs (x : ℚ) : ℚ :=
  if x < 0 then -x else x

/-- Embeds `std::min` on the rational float model (`b < a ? b : a`). -/
def rmin (a b : ℚ) : ℚ :=
  if b < a then b else a

namespace RgbColor

/-- Embeds the float overload of `RgbColor::fuzzyCompare`:
`abs(p1 - p2) * 100000.f <= min(abs(p1), abs(p2))`. -/
def fuzzyCompareF (p1 p2 : ℚ) : Bool :=
  decide (rabs (p1 - p2) * 100000 ≤ rmin (rabs p1) (rabs p2))

/-- Embeds the hue correction at the top of the HSB branch of
`RgbColor::convertToRgbColor`: a single `+1` when negative, else a single
`-1` when at least one. -/
def normalizeHue (h : ℚ) : ℚ :=
  if h < 0 then h + 1 else if h ≥ 1 then h - 1 else h

/-- Embeds the sector computation of the HSB branch of
`RgbColor::convertToRgbColor` after the hue correction: scale by 6, take
the integer sector `i` by C truncation, the fractional part `f`, the
auxiliary `q`, `p`, `t`, and the six-way sector assignment where sector 5
shares the `default` arm. -/
def hsbCore (h1 s bb : ℚ) : RgbColor :=
  let h6 := h1 * 6
  let i := ratTrunc h6
  let f := h6 - (i : ℚ)
  let q := bb * (1 - s * f)
  let p := bb * (1 - s)
  let t := bb * (1 - s * (1 - f))
  if i = 0 then ⟨toByte bb, toByte t, toByte p⟩
  else if i = 1 then ⟨toByte q, toByte bb, toByte p⟩
  else if i = 2 then ⟨toByte p, toByte bb, toByte t⟩
  else if i = 3 then ⟨toByte p, toByte q, toByte bb⟩
  else if i = 4 then ⟨toByte t, toByte p, toByte bb⟩
  else ⟨toByte bb, toByte p, toByte q⟩

/-- Embeds `RgbColor::convertToRgbColor(HsbColor)`: the fuzzy achromatic
check against zero saturation, else the corrected-hue sector computation. -/
def convertToRgbColorHsb : HsbColor → RgbColor
  | ⟨h, s, b⟩ =>
    if fuzzyCompareF s 0 then ⟨toByte b, toByte b, toByte b⟩
    else hsbCore (normalizeHue h) s b

/-- Embeds `RgbColor::LinearBlend`: per channel
`left + (right - left) * progress`, converted to `uint8_t` on
construction. -/
def LinearBlend (left right : RgbColor) (progress : ℚ) : RgbColor :=
  ⟨toByte ((left.R : ℚ) + ((right.R : ℚ) - (left.R : ℚ)) * progress),
   toByte ((left.G : ℚ) + ((right.G : ℚ) - (left.G : ℚ)) * progress),
   toByte ((left.B : ℚ) + ((right.B : ℚ) - (left.B : ℚ)) * progress)⟩

end RgbColor

namespace HslColor

/-- Embeds the max-channel selection of `HslColor::convertToHslColor`:
`(r > g && r > b) ? r : (g > b) ? g : b`. -/
def hslMax (r g b : ℚ) : ℚ :=
  if r > g ∧ r > b then r else if g > b then g else b

/-- Embeds the min-channel selection of `HslColor::convertToHslColor`:
`(r < g && r < b) ? r : (g < b) ? g : b`. -/
def hslMin (r g b : ℚ) : ℚ :=
  if r < g ∧ r < b then r else if g < b then g else b

/-- Embeds `HslColor::convertToHslColor`: normalize channels to 0..1,
`L = (max + min) / 2`; achromatic branch zeroes `H` and `S` when
`max == min`; otherwise the piecewise `S` and the three-way hue branch,
normalized by 6. -/
def convertToHslColor (c : RgbColor) : HslColor :=
  let r : ℚ := (c.R : ℚ) / 255
  let g : ℚ := (c.G : ℚ) / 255
  let b : ℚ := (c.B : ℚ) / 255
  let mx := hslMax r g b
  let mn := hslMin r g b
  let l := (mx + mn) / 2
  if mx = mn then ⟨0, 0, l⟩
  else
    let d := mx - mn
    let s := if l > 1/2 then d / (2 - (mx + mn)) else d / (mx + mn)
    let hRaw :=
      if r > g ∧ r > b then (g - b) / d + (if g < b then 6 else 0)
      else if g > b then (b - r) / d + 2
      else (r - g) / d + 4
    ⟨hRaw / 6, s, l⟩

end HslColor

/-- Right shift by 8 on `Nat` is division by 256. -/
lemma shiftRight8_eq_div (n : Nat) : n >>> 8 = n / 256 :=
  Nat.shiftRight_eq_div_pow n 8

/-- C1 counterexample: there is no channel value `v` in `[0,255]` with
`_elementDim v 255 ≠ v`; the `(ratio+1)/256` factor at ratio 255 is 256/256,
which is exact unity on every byte, refuting the claimed existence of a
channel the scale misses. -/
theorem C1_dim255_no_nonfixed_channel :
    ¬ ∃ v, v < 256 ∧ RgbColor._elementDim v 255 ≠ v := by
  decide

/-- Claim C1 (amended): `c.Dim 255 = c` is an exact identity on every
in-range color -- the scale factor `(255+1)/256` is exactly one, so no
channel is off by even 1 LSB. -/
theorem C1_dim255_exact (c : RgbColor)
    (hR : c.R ≤ 255) (hG : c.G ≤ 255) (hB : c.B ≤ 255) :
    c.Dim 255 = c := by
  have key : ∀ v, v ≤ 255 → RgbColor._elementDim v 255 = v := by
    intro v hv
    have h1 : v * 256 / 256 = v := by omega
    simp [RgbColor._elementDim, shiftRight8_eq_div, h1, Nat.mod_eq_of_lt (by omega : v < 256)]
  have step : c.Dim 255 = ⟨c.R, c.G, c.B⟩ := by
    simp only [RgbColor.Dim]
    rw [key c.R hR, key c.G hG, key c.B hB]
  rw [step]

/-- Claim C1 witness: the amended theorem applied at the concrete color
(10, 20, 30). -/
theorem C1_dim255_exact_witness :
    (⟨10, 20, 30⟩ : RgbColor).Dim 255 = ⟨10, 20, 30⟩ :=
  C1_dim255_exact ⟨10, 20, 30⟩ (by decide) (by decide) (by decide)

/-- Claim C2: for in-range channels and ratio, `Dim` computes each result
channel as `(value * (ratio + 1)) >>> 8`; the widened product stays below
`2 ^ 16` (the 16-bit multiply never overflows), and `Dim` at ratio 0 is
black. -/
theorem C2_dim_formula (c : RgbColor) (r : Nat)
    (hR : c.R ≤ 255) (hG : c.G ≤ 255) (hB : c.B ≤ 255) (hr : r ≤ 255) :
    (c.Dim r).R = (c.R * (r + 1)) >>> 8 ∧
    (c.Dim r).G = (c.G * (r + 1)) >>> 8 ∧
    (c.Dim r).B = (c.B * (r + 1)) >>> 8 ∧
    c.R * (r + 1) < 65536 ∧ c.G * (r + 1) < 65536 ∧ c.B * (r + 1) < 65536 ∧
    c.Dim 0 = ⟨0, 0, 0⟩ := by
  have elim : ∀ v, v ≤ 255 → RgbColor._elementDim v r = (v * (r + 1)) >>> 8 := by
    intro v hv
    have hb : v * (r + 1) ≤ 255 * 256 := by nlinarith
    have hlt : (v * (r + 1)) >>> 8 < 256 := by
      rw [shiftRight8_eq_div]
      omega
    simp [RgbColor._elementDim, Nat.mod_eq_of_lt hlt]
  have zero : ∀ v, v ≤ 255 → RgbColor._elementDim v 0 = 0 := by
    intro v hv
    have h1 : v / 256 = 0 := by omega
    simp [RgbColor._elementDim, shiftRight8_eq_div, h1]
  refine ⟨elim c.R hR, elim c.G hG, elim c.B hB, by nlinarith, by nlinarith, by nlinarith, ?_⟩
  simp [RgbColor.Dim, zero c.R hR, zero c.G hG, zero c.B hB]

/-- Claim C2 witness: the theorem applied at the concrete color (10, 20, 30)
and ratio 128. -/
theorem C2_dim_formula_witness :
    ((⟨10, 20, 30⟩ : RgbColor).Dim 128).R = (10 * (128 + 1)) >>> 8 ∧
    ((⟨10, 20, 30⟩ : RgbColor).Dim 128).G = (20 * (128 + 1)) >>> 8 ∧
    ((⟨10, 20, 30⟩ : RgbColor).Dim 128).B = (30 * (128 + 1)) >>> 8 ∧
    10 * (128 + 1) < 65536 ∧ 20 * (128 + 1) < 65536 ∧ 30 * (128 + 1) < 65536 ∧
    (⟨10, 20, 30⟩ : RgbColor).Dim 0 = ⟨0, 0, 0⟩ :=
  C2_dim_formula ⟨10, 20, 30⟩ 128 (by decide) (by decide) (by decide) (by decide)

/-- Left shift of `v + 1` by 8 is multiplication by 256. -/
lemma shiftLeft8_eq_mul (n : Nat) : n <<< 8 = n * 256 :=
  Nat.shiftLeft_eq n 8

/-- The exact brighten quotient is at least one: the numerator
`(v + 1) * 256` is at least 256, which dominates any byte ratio plus one. -/
lemma brighten_quot_pos (v r : Nat) (hr : r ≤ 255) :
    1 ≤ ((v + 1) <<< 8) / (r + 1) := by
  rw [shiftLeft8_eq_mul]
  have hle : r + 1 ≤ (v + 1) * 256 := by omega
  exact (Nat.one_le_div_iff (by omega)).mpr hle

/-- Away from the overflowing pair (255, 0) the exact brighten quotient
fits in a `uint16_t`. -/
lemma brighten_quot_le (v r : Nat) (hv : v ≤ 255) (hvr : ¬(v = 255 ∧ r = 0)) :
    ((v + 1) <<< 8) / (r + 1) ≤ 65535 := by
  rw [shiftLeft8_eq_mul]
  rcases Nat.eq_zero_or_pos r with h0 | hpos
  · subst h0
    have hv' : v ≤ 254 := by
      rcases Nat.lt_or_ge v 255 with h | h
      · omega
      · exact absurd ⟨by omega, rfl⟩ hvr
    rw [Nat.div_one]
    omega
  · have h1 : (v + 1) * 256 ≤ 65536 := by omega
    calc (v + 1) * 256 / (r + 1) ≤ 65536 / (r + 1) := Nat.div_le_div_right h1
      _ ≤ 65536 / 2 := Nat.div_le_div_left (by omega) (by omega)
      _ ≤ 65535 := by norm_num

/-- Away from (255, 0) the `uint16_t` store of the brighten quotient is
lossless. -/
lemma elementBrightenStored_exact (v r : Nat) (hv : v ≤ 255)
    (hvr : ¬(v = 255 ∧ r = 0)) :
    RgbColor._elementBrightenStored v r = ((v + 1) <<< 8) / (r + 1) :=
  Nat.mod_eq_of_lt (by have := brighten_quot_le v r hv hvr; omega)

/-- The brighten routine returns, for every pair of bytes, exactly the value
of the exact-integer-arithmetic clamp-or-decrement description. -/
lemma elementBrighten_eq_spec (v r : Nat) (hv : v ≤ 255) (hr : r ≤ 255) :
    RgbColor._elementBrighten v r = RgbColor.elementBrightenSpec v r := by
  by_cases hvr : v = 255 ∧ r = 0
  · obtain ⟨h1, h2⟩ := hvr
    subst h1; subst h2
    decide
  · have hq1 := brighten_quot_pos v r hr
    have hq2 := brighten_quot_le v r hv hvr
    have hmod := elementBrightenStored_exact v r hv hvr
    simp only [RgbColor._elementBrighten, RgbColor.elementBrightenSpec, hmod]
    by_cases hgt : ((v + 1) <<< 8) / (r + 1) > 255
    · simp [hgt]
    · simp only [if_neg hgt]
      omega

/-- C3 counterexample: at value 255, ratio 0 the exact quotient is 65536,
but the `uint16_t` store truncates it to 0, so the computation is not done
in exact integer arithmetic there; the element is below 1 and the
decrement wraps around to 65535.  The returned byte is still 255. -/
theorem C3_brighten_store_wraps :
    RgbColor._elementBrightenStored 255 0 = 0 ∧
    ((255 + 1) <<< 8) / (0 + 1) = 65536 ∧
    RgbColor._elementBrightenStored 255 0 < 1 ∧
    (RgbColor._elementBrightenStored 255 0 + 65535) % 65536 = 65535 ∧
    RgbColor._elementBrighten 255 0 = 255 := by
  decide

/-- Claim C3 (amended): for in-range inputs `Brighten` returns, per channel,
exactly the value of the exact-integer-arithmetic description
(`((value+1)<<8)/(ratio+1)`, clamped to 255, else decremented); the exact
quotient is always at least 1; and the intermediate `uint16_t` store of the
quotient is exact for every input except (value, ratio) = (255, 0), where
the store wraps to 0 and the decrement wraps to 65535 yet the returned byte
(255) still agrees with the exact-arithmetic description. -/
theorem C3_brighten_spec (c : RgbColor) (r : Nat)
    (hR : c.R ≤ 255) (hG : c.G ≤ 255) (hB : c.B ≤ 255) (hr : r ≤ 255) :
    c.Brighten r = ⟨RgbColor.elementBrightenSpec c.R r,
                    RgbColor.elementBrightenSpec c.G r,
                    RgbColor.elementBrightenSpec c.B r⟩ ∧
    1 ≤ ((c.R + 1) <<< 8) / (r + 1) ∧
    (¬(c.R = 255 ∧ r = 0) →
      RgbColor._elementBrightenStored c.R r = ((c.R + 1) <<< 8) / (r + 1)) := by
  refine ⟨?_, brighten_quot_pos c.R r hr, elementBrightenStored_exact c.R r hR⟩
  simp only [RgbColor.Brighten]
  rw [elementBrighten_eq_spec c.R r hR hr, elementBrighten_eq_spec c.G r hG hr,
    elementBrighten_eq_spec c.B r hB hr]

/-- Claim C3 witness: the amended theorem applied at the concrete color
(10, 20, 30) and ratio 127. -/
theorem C3_brighten_spec_witness :
    (⟨10, 20, 30⟩ : RgbColor).Brighten 127 =
      ⟨RgbColor.elementBrightenSpec 10 127,
       RgbColor.elementBrightenSpec 20 127,
       RgbColor.elementBrightenSpec 30 127⟩ ∧
    1 ≤ ((10 + 1) <<< 8) / (127 + 1) ∧
    (¬(10 = 255 ∧ 127 = 0) →
      RgbColor._elementBrightenStored 10 127 = ((10 + 1) <<< 8) / (127 + 1)) :=
  C3_brighten_spec ⟨10, 20, 30⟩ 127 (by decide) (by decide) (by decide) (by decide)

/-- The saturating-add arm of `Lighten` equals the clamped sum for byte
inputs. -/
lemma lightenChannel_eq_min (v d : Nat) (_hv : v ≤ 255) (hd : d ≤ 255) :
    RgbwColor.lightenChannel v d = min (v + d) 255 := by
  unfold RgbwColor.lightenChannel
  split
  · rw [Nat.mod_eq_of_lt (by omega)]
    omega
  · omega

/-- Claim C4: `RgbwColor::Lighten` branches on `IsColorLess` -- on a
colorless color it saturating-adds the delta to `W` only, leaving `R`, `G`,
`B` at zero; otherwise it saturating-adds the delta to `R`, `G`, `B`
(clamping at 255) and leaves `W` unchanged. -/
theorem C4_rgbw_lighten_policy (c : RgbwColor) (d : Nat)
    (hR : c.R ≤ 255) (hG : c.G ≤ 255) (hB : c.B ≤ 255) (hW : c.W ≤ 255)
    (hd : d ≤ 255) :
    (c.IsColorLess = true → c.Lighten d = ⟨0, 0, 0, min (c.W + d) 255⟩) ∧
    (c.IsColorLess = false →
      c.Lighten d = ⟨min (c.R + d) 255, min (c.G + d) 255, min (c.B + d) 255, c.W⟩) := by
  constructor
  · intro h
    have hz : c.R = 0 ∧ c.B = 0 ∧ c.G = 0 := by
      simpa [RgbwColor.IsColorLess, Bool.and_eq_true, beq_iff_eq, and_assoc] using h
    simp [RgbwColor.Lighten, h, lightenChannel_eq_min c.W d hW hd,
      hz.1, hz.2.1, hz.2.2]
  · intro h
    simp [RgbwColor.Lighten, h, lightenChannel_eq_min c.R d hR hd,
      lightenChannel_eq_min c.G d hG hd, lightenChannel_eq_min c.B d hB hd]

/-- Claim C4 witness: the theorem applied at the two colors named by the
claim -- a colorless one where only `W` grows, and a colored one where `W`
stays put. -/
theorem C4_rgbw_lighten_policy_witness :
    RgbwColor.Lighten ⟨0, 0, 0, 10⟩ 5 = ⟨0, 0, 0, 15⟩ ∧
    RgbwColor.Lighten ⟨10, 10, 10, 0⟩ 5 = ⟨15, 15, 15, 0⟩ := by
  have h1 := (C4_rgbw_lighten_policy ⟨0, 0, 0, 10⟩ 5 (by decide) (by decide)
    (by decide) (by decide) (by decide)).1 (by decide)
  have h2 := (C4_rgbw_lighten_policy ⟨10, 10, 10, 0⟩ 5 (by decide) (by decide)
    (by decide) (by decide) (by decide)).2 (by decide)
  exact ⟨h1.trans (by decide), h2.trans (by decide)⟩

/-- Claim C8: `RgbwColor::CalculateBrightness` is the larger of the
three-channel average and `W`, and that average is computed exactly as in
`RgbColor::CalculateBrightness`: the truncated widened sum divided by 3. -/
theorem C8_rgbw_brightness (c : RgbwColor)
    (hR : c.R ≤ 255) (hG : c.G ≤ 255) (hB : c.B ≤ 255) :
    c.CalculateBrightness = max (RgbColor.CalculateBrightness ⟨c.R, c.G, c.B⟩) c.W ∧
    RgbColor.CalculateBrightness ⟨c.R, c.G, c.B⟩ = (c.R + c.G + c.B) / 3 := by
  have hs : (c.R + c.G + c.B) / 3 < 256 := by omega
  have h2 : RgbColor.CalculateBrightness ⟨c.R, c.G, c.B⟩ = (c.R + c.G + c.B) / 3 := by
    simp [RgbColor.CalculateBrightness, Nat.mod_eq_of_lt hs]
  refine ⟨?_, h2⟩
  have hdef : c.CalculateBrightness =
      if c.W > (c.R + c.G + c.B) / 3 % 256 then c.W else (c.R + c.G + c.B) / 3 % 256 := rfl
  rw [hdef, Nat.mod_eq_of_lt hs, h2]
  split <;> omega

/-- Claim C8 witness: the theorem applied at the concrete color
(10, 20, 200, 90). -/
theorem C8_rgbw_brightness_witness :
    RgbwColor.CalculateBrightness ⟨10, 20, 200, 90⟩ =
      max (RgbColor.CalculateBrightness ⟨10, 20, 200⟩) 90 ∧
    RgbColor.CalculateBrightness ⟨10, 20, 200⟩ = (10 + 20 + 200) / 3 :=
  C8_rgbw_brightness ⟨10, 20, 200, 90⟩ (by decide) (by decide) (by decide)

/-- Claim C10: constructing an `RgbwColor` from a single brightness value
fills only the white channel, leaving `R`, `G`, `B` at zero -- unlike the
analogous `RgbColor` brightness constructor, which produces the gray fill,
and unlike the RGB-to-RGBW conversion, which zero-fills `W`. -/
theorem C10_brightness_ctor : ∀ b : Nat,
    RgbwColor.fromBrightness b = ⟨0, 0, 0, b⟩ ∧
    RgbColor.fromBrightness b = ⟨b, b, b⟩ ∧
    (b ≠ 0 →
      RgbwColor.fromBrightness b ≠ RgbwColor.fromRgb (RgbColor.fromBrightness b)) := by
  intro b
  refine ⟨rfl, rfl, fun hb hEq => hb ?_⟩
  exact congrArg RgbwColor.W hEq

/-- Claim C10 witness: the theorem applied at brightness 5. -/
theorem C10_brightness_ctor_witness :
    RgbwColor.fromBrightness 5 = ⟨0, 0, 0, 5⟩ ∧
    RgbColor.fromBrightness 5 = ⟨5, 5, 5⟩ ∧
    RgbwColor.fromBrightness 5 ≠ RgbwColor.fromRgb (RgbColor.fromBrightness 5) :=
  ⟨(C10_brightness_ctor 5).1, (C10_brightness_ctor 5).2.1,
    (C10_brightness_ctor 5).2.2 (by decide)⟩

/-- Compared against zero the relative-tolerance comparison degenerates:
the right-hand side `min(abs(S), abs(0))` is zero, so the inequality forces
`S` itself to be zero. -/
lemma fuzzy_zero_iff (S : ℚ) : RgbColor.fuzzyCompareF S 0 = true ↔ S = 0 := by
  simp only [RgbColor.fuzzyCompareF, decide_eq_true_eq, rabs, rmin, sub_zero]
  constructor
  · intro hle
    split_ifs at hle <;> nlinarith
  · rintro rfl
    norm_num

/-- C5 counterexample: there is no nonzero saturation the achromatic check
classifies as achromatic -- `fuzzyCompare(S, 0)` never holds for `S ≠ 0`,
refuting the claim that the check differs from exact equality with zero. -/
theorem C5_fuzzy_zero_no_tolerance :
    ¬ ∃ S : ℚ, S ≠ 0 ∧ RgbColor.fuzzyCompareF S 0 = true := by
  rintro ⟨S, hne, h⟩
  exact hne ((fuzzy_zero_iff S).mp h)

/-- Claim C5 (amended): the achromatic check of the HSB conversion is
written as a relative-tolerance comparison, but against the constant 0 the
tolerance bound `min(abs(S), 0)` collapses to zero, so the check is
equivalent to the exact comparison `S == 0`; whenever the saturation is
exactly zero the conversion returns the achromatic triple built from the
brightness. -/
theorem C5_fuzzy_zero_exact :
    (∀ S : ℚ, (RgbColor.fuzzyCompareF S 0 = true ↔ S = 0)) ∧
    (∀ h s b : ℚ, s = 0 →
      RgbColor.convertToRgbColorHsb ⟨h, s, b⟩ = ⟨toByte b, toByte b, toByte b⟩) := by
  refine ⟨fuzzy_zero_iff, ?_⟩
  rintro h s b rfl
  simp [RgbColor.convertToRgbColorHsb, (fuzzy_zero_iff 0).mpr rfl]

/-- Claim C5 witness: the amended theorem applied at saturation 1/2 (not
achromatic) and at an exactly-zero saturation color. -/
theorem C5_fuzzy_zero_exact_witness :
    (RgbColor.fuzzyCompareF (1/2) 0 = true ↔ (1/2 : ℚ) = 0) ∧
    RgbColor.convertToRgbColorHsb ⟨1/4, 0, 200⟩ = ⟨toByte 200, toByte 200, toByte 200⟩ :=
  ⟨C5_fuzzy_zero_exact.1 (1/2), C5_fuzzy_zero_exact.2 (1/4) 0 200 rfl⟩

/-- A hue in `[1, 2)` and its single-step correction agree with the
correction of the hue one lower. -/
lemma normalizeHue_sub_one (h : ℚ) (h1 : 1 ≤ h) (h2 : h < 2) :
    RgbColor.normalizeHue h = RgbColor.normalizeHue (h - 1) := by
  unfold RgbColor.normalizeHue
  rw [if_neg (by linarith), if_pos (by linarith), if_neg (by linarith),
    if_neg (by linarith)]

/-- A hue in `[-1, 0)` and its single-step correction agree with the
correction of the hue one higher. -/
lemma normalizeHue_add_one (h : ℚ) (h1 : -1 ≤ h) (h2 : h < 0) :
    RgbColor.normalizeHue h = RgbColor.normalizeHue (h + 1) := by
  unfold RgbColor.normalizeHue
  rw [if_pos h2, if_neg (by linarith), if_neg (by linarith)]

/-- C6 counterexample: the hues 5/2 and 1/2 differ by the integer 2, yet
the HSB conversion maps them to different colors -- the single `-1`
correction leaves 5/2 at 3/2, outside `[0,1)`, and the sector index lands
in the default arm instead of sector 3. -/
theorem C6_hue_wrap_counterexample :
    RgbColor.convertToRgbColorHsb ⟨5/2, 1, 255⟩ ≠
      RgbColor.convertToRgbColorHsb ⟨1/2, 1, 255⟩ ∧
    (5/2 : ℚ) - (1/2 : ℚ) = 2 := by
  have hf : RgbColor.fuzzyCompareF 1 0 = false := by
    simp only [RgbColor.fuzzyCompareF, rabs, rmin, decide_eq_false_iff_not]
    norm_num
  have e1 : RgbColor.convertToRgbColorHsb ⟨5/2, 1, 255⟩ = ⟨255, 0, 255⟩ := by
    simp only [RgbColor.convertToRgbColorHsb, hf, Bool.false_eq_true, if_false]
    norm_num [RgbColor.hsbCore, RgbColor.normalizeHue, ratTrunc, toByte]
    omega
  have e2 : RgbColor.convertToRgbColorHsb ⟨1/2, 1, 255⟩ = ⟨0, 255, 255⟩ := by
    simp only [RgbColor.convertToRgbColorHsb, hf, Bool.false_eq_true, if_false]
    norm_num [RgbColor.hsbCore, RgbColor.normalizeHue, ratTrunc, toByte]
    omega
  refine ⟨?_, by norm_num⟩
  rw [e1, e2]
  decide

/-- Claim C6 (amended): the HSB conversion corrects the hue by a single
`+1` step when negative and a single `-1` step when at least one, so only
hues in `[-1, 0)` and `[1, 2)` are wrapped into `[0, 1)`: within that range
a hue and its integer-shifted representative convert identically, but
general integer shifts (hues outside `[-1, 2)`) are not normalized. -/
theorem C6_hsb_hue_single_wrap (h s b : ℚ) :
    (1 ≤ h ∧ h < 2 →
      RgbColor.convertToRgbColorHsb ⟨h, s, b⟩ =
        RgbColor.convertToRgbColorHsb ⟨h - 1, s, b⟩) ∧
    (-1 ≤ h ∧ h < 0 →
      RgbColor.convertToRgbColorHsb ⟨h, s, b⟩ =
        RgbColor.convertToRgbColorHsb ⟨h + 1, s, b⟩) := by
  constructor
  · rintro ⟨h1, h2⟩
    simp only [RgbColor.convertToRgbColorHsb]
    rw [normalizeHue_sub_one h h1 h2]
  · rintro ⟨h1, h2⟩
    simp only [RgbColor.convertToRgbColorHsb]
    rw [normalizeHue_add_one h h1 h2]

/-- Claim C6 witness: the amended theorem applied at hue 3/2, which wraps
to 1/2 and converts identically. -/
theorem C6_hsb_hue_single_wrap_witness :
    RgbColor.convertToRgbColorHsb ⟨3/2, 1, 255⟩ =
      RgbColor.convertToRgbColorHsb ⟨3/2 - 1, 1, 255⟩ :=
  (C6_hsb_hue_single_wrap (3/2) 1 255).1 (by norm_num)

/-- Claim C7: `LinearBlend` at progress 0 returns the left color and at
progress 1 returns the right color, exactly, for the literal colors
(10, 20, 30) and (200, 100, 50). -/
theorem C7_linear_blend_endpoints :
    RgbColor.LinearBlend ⟨10, 20, 30⟩ ⟨200, 100, 50⟩ 0 = ⟨10, 20, 30⟩ ∧
    RgbColor.LinearBlend ⟨10, 20, 30⟩ ⟨200, 100, 50⟩ 1 = ⟨200, 100, 50⟩ := by
  constructor <;> norm_num [RgbColor.LinearBlend, toByte, ratTrunc] <;> omega

/-- Claim C9: achromatic fixed points of the RGB-to-HSL conversion --
black maps to `H = 0, S = 0, L = 0`, full white maps to `L = 1` and
`S = 0`, and whenever the selected max and min of the normalized channels
coincide the result is `H = 0, S = 0, L = (max + min) / 2`. -/
theorem C9_hsl_achromatic :
    HslColor.convertToHslColor ⟨0, 0, 0⟩ = ⟨0, 0, 0⟩ ∧
    (HslColor.convertToHslColor ⟨255, 255, 255⟩).L = 1 ∧
    (HslColor.convertToHslColor ⟨255, 255, 255⟩).S = 0 ∧
    ∀ c : RgbColor,
      HslColor.hslMax ((c.R : ℚ) / 255) ((c.G : ℚ) / 255) ((c.B : ℚ) / 255) =
        HslColor.hslMin ((c.R : ℚ) / 255) ((c.G : ℚ) / 255) ((c.B : ℚ) / 255) →
      HslColor.convertToHslColor c =
        ⟨0, 0, (HslColor.hslMax ((c.R : ℚ) / 255) ((c.G : ℚ) / 255) ((c.B : ℚ) / 255) +
                HslColor.hslMin ((c.R : ℚ) / 255) ((c.G : ℚ) / 255) ((c.B : ℚ) / 255)) / 2⟩ := by
  refine ⟨by norm_num [HslColor.convertToHslColor, HslColor.hslMax, HslColor.hslMin],
    by norm_num [HslColor.convertToHslColor, HslColor.hslMax, HslColor.hslMin],
    by norm_num [HslColor.convertToHslColor, HslColor.hslMax, HslColor.hslMin], ?_⟩
  intro c h
  simp only [HslColor.convertToHslColor]
  rw [if_pos h]

/-- Claim C9 witness: the general achromatic branch applied at the gray
color (7, 7, 7). -/
theorem C9_hsl_achromatic_witness :
    HslColor.convertToHslColor ⟨7, 7, 7⟩ =
      ⟨0, 0, (HslColor.hslMax (((7 : Nat) : ℚ) / 255) (((7 : Nat) : ℚ) / 255) (((7 : Nat) : ℚ) / 255) +
              HslColor.hslMin (((7 : Nat) : ℚ) / 255) (((7 : Nat) : ℚ) / 255) (((7 : Nat) : ℚ) / 255)) / 2⟩ :=
  C9_hsl_achromatic.2.2.2 ⟨7, 7, 7⟩ (by norm_num [HslColor.hslMax, HslColor.hslMin])
